import Mathlib

/-!
# Verification of the Wikipedia category scraper (`src/tokenizer/wiki_scraper.py`)

Shallow embedding of the scraper's components:

* `api_get` — the HTTP access layer with its bounded retry loop;
* `get_category_members` — the paginated category-member enumerator;
* `get_page_extract` — the single-page extract fetcher;
* `crawl_pages` / `crawl_subcats` / `crawl_category` — the recursive crawler;
* `mainRun` — the run driver looping over (language, category) pairs.

Network and file effects are made explicit: HTTP responses come from
environment parameters (`Attempt` streams, response lists, a `WikiEnv`),
and the output sink is the returned list of JSON lines.
-/

namespace WikiScraper

/-- Parsed JSON values, the shape of what `json.dumps` serializes per line. -/
inductive Json where
  | null
  | bool (b : Bool)
  | num (n : Int)
  | str (s : String)
  | arr (elems : List Json)
  | obj (fields : List (String × Json))

/-- `MAX_RETRIES = 3` in the source. -/
def MAX_RETRIES : Nat := 3

/-- Outcome of one HTTP attempt inside `api_get`'s loop: either a
`requests.RequestException` (transport error) or a response with a status
code and a parsed body.  The body type is abstract. -/
inductive Attempt (α : Type) where
  | transportError (msg : String)
  | response (status : Nat) (body : α)
deriving DecidableEq

/-- The retry loop of `api_get`: `for attempt in range(MAX_RETRIES)`.
`i` is the index of the next attempt in the stream, the last argument the
number of attempts still allowed.  A 200 response returns its parsed body;
anything else (after the logged wait) moves to the next attempt.  When the
loop ends, `raise RuntimeError(f"Failed to fetch {url} after {MAX_RETRIES}
retries.")` — note the message mentions the URL only. -/
def api_get_from {α : Type} (attempts : Nat → Attempt α) (url : String) (i : Nat) :
    Nat → Except String α
  | 0 => .error ("Failed to fetch " ++ url ++ " after 3 retries.")
  | k + 1 =>
    match attempts i with
    | .transportError _ => api_get_from attempts url (i + 1) k
    | .response status body =>
      if status = 200 then .ok body else api_get_from attempts url (i + 1) k

/-- `api_get(session, url, params)`: the attempt-outcome stream stands for
what the network returns to the successive `session.get` calls of this
invocation.  As in the source, `params` does not flow into the result or
the raised error; it is only sent with the requests (and printed). -/
def api_get {α : Type} (url : String) (params : List (String × String))
    (attempts : Nat → Attempt α) : Except String α :=
  api_get_from attempts url 0 MAX_RETRIES

/-- An attempt that does not make `api_get` return: a transport error or a
non-200 status. -/
def attemptFails {α : Type} : Attempt α → Bool
  | .transportError _ => true
  | .response s _ => !(s == 200)

/-! ## String primitives used by the scraper

`str.replace` and `urllib.parse.quote` are Python primitives; they are
embedded here over `List Char` / code points so that everything reduces in
the kernel. -/

/-- Python `str.replace` on character lists: scan left to right, replacing
each non-overlapping occurrence of `pat`.  The fuel is an upper bound on
the number of steps; `s.length` suffices for a non-empty pattern. -/
def replaceFuel (pat rep : List Char) : Nat → List Char → List Char
  | 0, s => s
  | _ + 1, [] => []
  | fuel + 1, c :: rest =>
    if pat.isPrefixOf (c :: rest) then
      rep ++ replaceFuel pat rep fuel ((c :: rest).drop pat.length)
    else
      c :: replaceFuel pat rep fuel rest

/-- Python `s.replace(pat, rep)` (for the non-empty patterns the scraper
uses). -/
def pyStrReplace (s pat rep : String) : String :=
  ⟨replaceFuel pat.data rep.data s.data.length s.data⟩

/-- Uppercase hexadecimal digit, as `urllib.parse.quote` produces. -/
def hexDigit (n : Nat) : Char :=
  if n < 10 then Char.ofNat (48 + n) else Char.ofNat (55 + n)

/-- UTF-8 encoding of one code point, as a list of byte values. -/
def utf8Encode (c : Char) : List Nat :=
  let n := c.toNat
  if n < 128 then [n]
  else if n < 2048 then [192 + n / 64, 128 + n % 64]
  else if n < 65536 then [224 + n / 4096, 128 + n / 64 % 64, 128 + n % 64]
  else [240 + n / 262144, 128 + n / 4096 % 64, 128 + n / 64 % 64, 128 + n % 64]

/-- Bytes `urllib.parse.quote` leaves unescaped with its default
`safe='/'`: ASCII letters, digits, `_ . - ~`, and `/`. -/
def quoteSafe (b : Nat) : Bool :=
  (65 ≤ b && b ≤ 90) || (97 ≤ b && b ≤ 122) || (48 ≤ b && b ≤ 57) ||
    b == 95 || b == 46 || b == 45 || b == 126 || b == 47

/-- Percent-encoding of one byte. -/
def quoteByte (b : Nat) : List Char :=
  if quoteSafe b then [Char.ofNat b] else ['%', hexDigit (b / 16), hexDigit (b % 16)]

/-- `urllib.parse.quote(s)`: percent-encode the UTF-8 bytes of `s`. -/
def pyQuote (s : String) : String :=
  ⟨((s.data.map utf8Encode).flatten.map quoteByte).flatten⟩

/-- The URL the crawler stores in each output object:
`f"https://{lang}.wikipedia.org/wiki/{quote(title.replace(' ', '_'))}"`. -/
def urlOf (lang title : String) : String :=
  "https://" ++ lang ++ ".wikipedia.org/wiki/" ++ pyQuote (pyStrReplace title " " "_")

/-- `member["title"].replace("Category:", "")` — the crawler's
normalization of a subcategory title (removes every occurrence of the
pattern, not only a leading one). -/
def normTitle (t : String) : String :=
  pyStrReplace t "Category:" ""

/-- Python `str.strip()`: drop leading and trailing whitespace. -/
def pyStrip (s : String) : String :=
  ⟨((s.data.dropWhile Char.isWhitespace).reverse.dropWhile Char.isWhitespace).reverse⟩

/-! ## Category member enumerator (`get_category_members`) -/

/-- A category member as the API returns it: `m["pageid"]`, `m["title"]`. -/
structure Member where
  pageid : Nat
  title : String
deriving DecidableEq

/-- One API response to a `categorymembers` query: the batch
`data["query"]["categorymembers"]` and, when present, the opaque
continuation dictionary `data["continue"]`. -/
structure CMResponse where
  members : List Member
  cont : Option (List (String × String))
deriving DecidableEq

/-- Python `dict` assignment `d[k] = v` on an association list. -/
def setParam (ps : List (String × String)) (k v : String) : List (String × String) :=
  if ps.any (fun kv => kv.1 == k) then
    ps.map (fun kv => if kv.1 == k then (k, v) else kv)
  else ps ++ [(k, v)]

/-- Python `params.update(cont)`. -/
def updateParams (ps upd : List (String × String)) : List (String × String) :=
  upd.foldl (fun acc kv => setParam acc kv.1 kv.2) ps

/-- The fixed query `get_category_members` builds for a category. -/
def cmBaseParams (category : String) (limit : Nat) (cmtype : String) :
    List (String × String) :=
  [("action", "query"), ("format", "json"), ("list", "categorymembers"),
   ("cmtitle", "Category:" ++ category), ("cmlimit", toString limit),
   ("cmtype", cmtype)]

/-- The `while True` pagination loop of `get_category_members`.  `params`
is the current query; `responses` the successive API answers this
invocation receives.  Yields the members of each batch in order and, when
the response holds a continuation dictionary, re-issues the query updated
with it; stops when a response has no `"continue"` key.  Returns the
yielded members together with the query parameters of each issued
request.  (An empty `responses` list means no further answer exists; the
hypotheses of the theorems below rule it out.) -/
def get_category_members_go (params : List (String × String)) :
    List CMResponse → List Member × List (List (String × String))
  | [] => ([], [])
  | r :: rest =>
    match r.cont with
    | some contDict =>
      let next := get_category_members_go (updateParams params contDict) rest
      (r.members ++ next.1, params :: next.2)
    | none => (r.members, [params])

/-- `get_category_members(session, api_url, category, cmtype, limit)`. -/
def get_category_members (category : String) (cmtype : String) (limit : Nat)
    (responses : List CMResponse) : List Member × List (List (String × String)) :=
  get_category_members_go (cmBaseParams category limit cmtype) responses

/-- A response sequence as the pagination loop consumes it: every response
before the last carries a continuation token, the last does not. -/
def goodRespSeq : List CMResponse → Bool
  | [] => false
  | [r] => r.cont.isNone
  | r :: rest => r.cont.isSome && goodRespSeq rest

/-- Modelled from the spec's words: the requests the enumerator is
expected to issue — the first carries the query itself, each further one
the same query merged with the continuation token just received. -/
def expectedRequests (params : List (String × String)) :
    List CMResponse → List (List (String × String))
  | [] => []
  | r :: rest =>
    params :: match r.cont with
    | some contDict => expectedRequests (updateParams params contDict) rest
    | none => []

/-! ## Page extract fetcher (`get_page_extract`) -/

/-- One value of the `pages` dictionary in an `extracts` response, with the
fields the scraper reads (`p.get("pageid")`, `p.get("title")`,
`p.get("extract", "")`), typed as present and well-formed. -/
structure PageObj where
  pageid : Nat
  title : String
  extract : String
deriving DecidableEq

/-- What `get_page_extract` returns on success: pageid, title, extract. -/
structure ExtractInfo where
  pageid : Nat
  title : String
  extract : String
deriving DecidableEq

/-- Python `s.startswith(pre)`. -/
def pyStartsWith (s pre : String) : Bool :=
  pre.data.isPrefixOf s.data

/-- The loop over `pages.items()`: return on the first entry — `none` when
its key starts with `"-"` (missing page) — and `none` for an empty dict. -/
def extractFromPages : List (String × PageObj) → Option ExtractInfo
  | [] => none
  | (pid, p) :: _ =>
    if pyStartsWith pid "-" then none
    else some ⟨p.pageid, p.title, p.extract⟩

/-- The fixed query `get_page_extract` builds before adding the page
selector. -/
def exBaseParams : List (String × String) :=
  [("action", "query"), ("format", "json"), ("prop", "extracts"),
   ("explaintext", "1"), ("exlimit", "1")]

/-- `get_page_extract(session, api_url, pageid=..., title=...)`.  The
environment `api` maps the query parameters of a request to the `pages`
dictionary of its (successful) response, abstracting
`api_get(...).get("query", {}).get("pages", {})`.  Returns the result
together with the list of issued requests.  As in the source: a supplied
`pageid` selects the `pageids` branch (a simultaneously supplied `title`
is ignored); with neither, `ValueError("pageid or title required")` is
raised before any request. -/
def get_page_extract (api : List (String × String) → List (String × PageObj))
    (pageid : Option Nat) (title : Option String) :
    Except String (Option ExtractInfo) × List (List (String × String)) :=
  match pageid with
  | some p =>
    let ps := exBaseParams ++ [("pageids", toString p)]
    (.ok (extractFromPages (api ps)), [ps])
  | none =>
    match title with
    | some t =>
      let ps := exBaseParams ++ [("titles", t)]
      (.ok (extractFromPages (api ps)), [ps])
    | none => (.error "pageid or title required", [])

/-! ## Category crawler (`crawl_category`)

The crawler's view of the remote API.  `get_category_members` is a lazy
generator: a `MemberStream` records the members it yields successfully
and, in `streamErr`, the `FetchExhausted` error the underlying `api_get`
raises — if any — when the crawler asks for the next member after the
listed ones.  `extractOf` is the observed outcome of
`get_page_extract(session, api_url, pageid=pid)`: an exception (caught by
the crawler's per-page `try`), a `None` return, or an extract record. -/

/-- Outcome of `get_page_extract` for one pageid, as the crawler sees it. -/
inductive ExtractResult where
  | fail (e : String)
  | missing
  | ok (info : ExtractInfo)
deriving DecidableEq

/-- A lazy member stream: the members yielded, then an optional error
raised in place of normal exhaustion. -/
structure MemberStream where
  members : List Member
  streamErr : Option String
deriving DecidableEq

/-- The remote API as one (language edition's) deterministic environment:
page-type members per category, subcategory-type members per category,
and the extract outcome per pageid. -/
structure WikiEnv where
  pagesOf : String → MemberStream
  subcatsOf : String → MemberStream
  extractOf : Nat → ExtractResult

/-- The `out_obj` dictionary the crawler serializes, one per line. -/
structure OutputRecord where
  lang : String
  category_path : List String
  title : String
  pageid : Nat
  text : String
  url : String
deriving DecidableEq

/-- `out_obj = {...}` as built at `wiki_scraper.py:129-136` from the
current language, category path and extract info. -/
def mkRecord (lang : String) (path : List String) (info : ExtractInfo) : OutputRecord :=
  { lang := lang
    category_path := path
    title := info.title
    pageid := info.pageid
    text := info.extract
    url := urlOf lang info.title }

/-- Result of one crawl call: the records written to the sink (in order),
the seen-pages set afterwards, and the exception propagating out of the
call, if any.  Records written before an exception remain written. -/
structure CrawlResult where
  recs : List OutputRecord
  seen : List Nat
  err : Option String
deriving DecidableEq

/-- The page-member loop of `crawl_category` (lines 113-139).  For each
pulled member: break once `pages_count >= max_pages_per_cat`; skip seen
pageids; skip members whose extract fetch raises (caught and logged),
returns `None`, or yields a whitespace-only extract; otherwise mark the
pageid seen, write the record, and continue counting.  When the stream is
exhausted, pulling the next member raises `sErr` if the generator's
underlying fetch failed there. -/
def crawl_pages (env : WikiEnv) (lang : String) (maxp : Nat) (path : List String) :
    List Member → Option String → Nat → List Nat → CrawlResult
  | [], sErr, _, seen => { recs := [], seen := seen, err := sErr }
  | m :: rest, sErr, count, seen =>
    if maxp ≤ count then { recs := [], seen := seen, err := none }
    else if m.pageid ∈ seen then crawl_pages env lang maxp path rest sErr count seen
    else
      match env.extractOf m.pageid with
      | .fail _ => crawl_pages env lang maxp path rest sErr count seen
      | .missing => crawl_pages env lang maxp path rest sErr count seen
      | .ok info =>
        if pyStrip info.extract = "" then crawl_pages env lang maxp path rest sErr count seen
        else
          let r := crawl_pages env lang maxp path rest sErr (count + 1) (m.pageid :: seen)
          { recs := mkRecord lang path info :: r.recs, seen := r.seen, err := r.err }

/-- The subcategory loop of `crawl_category` (lines 141-153),
parameterized by the recursive call `rec` one depth level down (this
keeps the recursion structural).  For each subcategory member: normalize
the title, skip it when the normalized name already occurs in
`category_path`, otherwise recurse sharing the threaded seen set; an
exception from a recursive call propagates (keeping the records already
written), and exhausting the stream raises its `streamErr` if any. -/
def crawl_subcats (rec : String → List Nat → List String → CrawlResult) :
    List Member → Option String → List Nat → List String → CrawlResult
  | [], sErr, seen, _ => { recs := [], seen := seen, err := sErr }
  | m :: rest, sErr, seen, path =>
    let nm := normTitle m.title
    if nm ∈ path then crawl_subcats rec rest sErr seen path
    else
      let r1 := rec nm seen (path ++ [nm])
      match r1.err with
      | some _ => r1
      | none =>
        let r2 := crawl_subcats rec rest sErr r1.seen path
        { recs := r1.recs ++ r2.recs, seen := r2.seen, err := r2.err }

/-- `crawl_category(session, api_url, out_fh, category, lang,
max_pages_per_cat, depth, seen_pages, category_path)`: first the page
loop; then, only when `depth > 0` and the page loop did not raise,
the subcategory loop with `depth - 1`. -/
def crawl_category (env : WikiEnv) (lang : String) (maxp : Nat) (depth : Nat)
    (cat : String) (seen : List Nat) (path : List String) : CrawlResult :=
  match depth with
  | 0 =>
    let st := env.pagesOf cat
    crawl_pages env lang maxp path st.members st.streamErr 0 seen
  | d + 1 =>
    let st := env.pagesOf cat
    let r1 := crawl_pages env lang maxp path st.members st.streamErr 0 seen
    match r1.err with
    | some _ => r1
    | none =>
      let st2 := env.subcatsOf cat
      let r2 := crawl_subcats (fun c s p => crawl_category env lang maxp d c s p)
        st2.members st2.streamErr r1.seen path
      { recs := r1.recs ++ r2.recs, seen := r2.seen, err := r2.err }
termination_by structural depth

/-! ### The recursive calls the subcategory loop performs -/

/-- The (category, new path) pairs the subcategory loop recurses into for
a member list under a given `category_path`: exactly the members whose
normalized name does not already occur in the path. -/
def subcat_calls (ms : List Member) (path : List String) : List (String × List String) :=
  ms.filterMap (fun m =>
    let nm := normTitle m.title
    if nm ∈ path then none else some (nm, path ++ [nm]))

/-- Running a list of recursive calls in order, threading the seen set,
concatenating output, stopping at the first propagating exception. -/
def runCalls (rec : String → List Nat → List String → CrawlResult) :
    List (String × List String) → Option String → List Nat → CrawlResult
  | [], sErr, seen => { recs := [], seen := seen, err := sErr }
  | c :: rest, sErr, seen =>
    let r1 := rec c.1 seen c.2
    match r1.err with
    | some _ => r1
    | none =>
      let r2 := runCalls rec rest sErr r1.seen
      { recs := r1.recs ++ r2.recs, seen := r2.seen, err := r2.err }

/-! ### Claim C3's reading of the cycle guard

Modelled from the spec's words: the claim defines the normalized name as
the member title with the category-namespace **prefix** stripped, where
the source removes **every** occurrence of `"Category:"`.  The following
variant crawler differs from `crawl_subcats`/`crawl_category` in that
single point, for comparison. -/

/-- Modelled from the spec: the member title with a leading `"Category:"`
prefix stripped (and nothing else changed). -/
def stripCatPrefix (t : String) : String :=
  if "Category:".data.isPrefixOf t.data then ⟨t.data.drop 9⟩ else t

/-- Modelled from the spec: the subcategory loop with claim C3's
prefix-stripping normalization. -/
def crawl_subcats_spec (rec : String → List Nat → List String → CrawlResult) :
    List Member → Option String → List Nat → List String → CrawlResult
  | [], sErr, seen, _ => { recs := [], seen := seen, err := sErr }
  | m :: rest, sErr, seen, path =>
    let nm := stripCatPrefix m.title
    if nm ∈ path then crawl_subcats_spec rec rest sErr seen path
    else
      let r1 := rec nm seen (path ++ [nm])
      match r1.err with
      | some _ => r1
      | none =>
        let r2 := crawl_subcats_spec rec rest sErr r1.seen path
        { recs := r1.recs ++ r2.recs, seen := r2.seen, err := r2.err }

/-- Modelled from the spec: `crawl_category` with claim C3's
prefix-stripping normalization in the subcategory loop. -/
def crawl_category_spec (env : WikiEnv) (lang : String) (maxp : Nat) (depth : Nat)
    (cat : String) (seen : List Nat) (path : List String) : CrawlResult :=
  match depth with
  | 0 =>
    let st := env.pagesOf cat
    crawl_pages env lang maxp path st.members st.streamErr 0 seen
  | d + 1 =>
    let st := env.pagesOf cat
    let r1 := crawl_pages env lang maxp path st.members st.streamErr 0 seen
    match r1.err with
    | some _ => r1
    | none =>
      let st2 := env.subcatsOf cat
      let r2 := crawl_subcats_spec (fun c s p => crawl_category_spec env lang maxp d c s p)
        st2.members st2.streamErr r1.seen path
      { recs := r1.recs ++ r2.recs, seen := r2.seen, err := r2.err }
termination_by structural depth

/-! ## Output serialization and the run driver (`main`) -/

/-- `json.dumps(out_obj)`: one output line as the JSON object with the six
fields in the source's insertion order. -/
def record_json (r : OutputRecord) : Json :=
  .obj [("lang", .str r.lang),
        ("category_path", .arr (r.category_path.map Json.str)),
        ("title", .str r.title),
        ("pageid", .num (r.pageid : Int)),
        ("text", .str r.text),
        ("url", .str r.url)]

/-- File open modes relevant to the driver. -/
inductive OpenMode where
  | write
  | append

/-- Effect of `open(outpath, mode)` on existing file content:
`"w"` truncates, `"a"` would keep it. -/
def openFile : OpenMode → List Json → List Json
  | .write, _ => []
  | .append, prev => prev

/-- One (language, category) pair's crawl as `main` invokes it: fresh
`seen_pages` (the `None` default makes a new set) and the fresh
single-element `category_path = [category]`. -/
def crawlPair (envOf : String → WikiEnv) (maxp depth : Nat) (lang cat : String) :
    CrawlResult :=
  crawl_category (envOf lang) lang maxp depth cat [] [cat]

/-- The diagnostic `print(f"Error crawling {lang}:{cat} -> {e}")`. -/
def errLine (lang cat e : String) : String :=
  "Error crawling " ++ lang ++ ":" ++ cat ++ " -> " ++ e

/-- `main(langs, categories, outpath, max_pages, depth)`: open the sink in
write mode (truncating `prev`), then for each language (outer) and
category (inner) crawl the pair, appending its written records to the
sink; an exception out of a pair's crawl is caught and logged (then the
fixed delay), and iteration continues.  Returns the final file lines and
the error log. -/
def mainRun (envOf : String → WikiEnv) (langs cats : List String) (maxp depth : Nat)
    (prev : List Json) : List Json × List String :=
  let init := openFile .write prev
  langs.foldl (fun acc lang =>
    cats.foldl (fun acc2 cat =>
      let r := crawlPair envOf maxp depth lang cat
      (acc2.1 ++ r.recs.map record_json,
        acc2.2 ++ match r.err with
          | some e => [errLine lang cat e]
          | none => [])) acc) (init, [])

/-- All (language, category) pairs in the driver's iteration order. -/
def pairsOf (langs cats : List String) : List (String × String) :=
  (langs.map (fun lang => cats.map (fun cat => (lang, cat)))).flatten

/-- The environment in which every category is empty and every page
missing. -/
def envEmpty : WikiEnv :=
  { pagesOf := fun _ => ⟨[], none⟩
    subcatsOf := fun _ => ⟨[], none⟩
    extractOf := fun _ => .missing }

/-! ## Eligibility and environment assumptions -/

/-- A page member is *eligible* at a given seen set when its pageid has
not been seen and its extract fetch yields a non-whitespace extract:
exactly the members for which the page loop writes a record. -/
def eligibleB (env : WikiEnv) (seen : List Nat) (m : Member) : Bool :=
  if m.pageid ∈ seen then false
  else
    match env.extractOf m.pageid with
    | .ok info => if pyStrip info.extract = "" then false else true
    | _ => false

/-- The remote API reports each page under its own pageid: the extract
response for `pid` carries `pageid = pid`.  (An assumption about the
environment, not about the program.) -/
def Consistent (env : WikiEnv) : Prop :=
  ∀ pid info, env.extractOf pid = .ok info → info.pageid = pid

/-! ## Lemmas about the page loop -/

/-- Marking a pageid no member of `ms` carries does not change
eligibility within `ms`. -/
theorem countP_eligible_cons (env : WikiEnv) (pid : Nat) :
    ∀ (ms : List Member) (seen : List Nat), (∀ m ∈ ms, m.pageid ≠ pid) →
      ms.countP (eligibleB env (pid :: seen)) = ms.countP (eligibleB env seen) := by
  intro ms seen h
  refine List.countP_congr (fun m hm => ?_)
  have hne : m.pageid ≠ pid := h m hm
  simp [eligibleB, hne]

/-- The page loop writes `min (maxp - count) (#eligible members)` records
when the members carry pairwise distinct pageids. -/
theorem crawl_pages_length (env : WikiEnv) (lang : String) (maxp : Nat) (path : List String) :
    ∀ (ms : List Member) (sErr : Option String) (count : Nat) (seen : List Nat),
      (ms.map (fun m => m.pageid)).Nodup →
      (crawl_pages env lang maxp path ms sErr count seen).recs.length
        = min (maxp - count) (ms.countP (eligibleB env seen)) := by
  intro ms
  induction ms with
  | nil => intro sErr count seen _; simp [crawl_pages]
  | cons m rest ih =>
    intro sErr count seen hnd
    have hnd' : (rest.map (fun m => m.pageid)).Nodup := (List.nodup_cons.mp hnd).2
    have hm : m.pageid ∉ rest.map (fun m => m.pageid) := (List.nodup_cons.mp hnd).1
    by_cases hcnt : maxp ≤ count
    · simp [crawl_pages, if_pos hcnt, Nat.sub_eq_zero_of_le hcnt]
    · have hlt : count < maxp := Nat.lt_of_not_le hcnt
      by_cases hseen : m.pageid ∈ seen
      · have hel : eligibleB env seen m = false := by simp [eligibleB, hseen]
        simp [crawl_pages, if_neg hcnt, if_pos hseen, ih sErr count seen hnd',
          List.countP_cons, hel]
      · cases hext : env.extractOf m.pageid with
        | fail e =>
          have hel : eligibleB env seen m = false := by simp [eligibleB, hseen, hext]
          simp [crawl_pages, if_neg hcnt, if_neg hseen, hext,
            ih sErr count seen hnd', List.countP_cons, hel]
        | missing =>
          have hel : eligibleB env seen m = false := by simp [eligibleB, hseen, hext]
          simp [crawl_pages, if_neg hcnt, if_neg hseen, hext,
            ih sErr count seen hnd', List.countP_cons, hel]
        | ok info =>
          by_cases hstrip : pyStrip info.extract = ""
          · have hel : eligibleB env seen m = false := by
              simp [eligibleB, hseen, hext, hstrip]
            simp [crawl_pages, if_neg hcnt, if_neg hseen, hext, if_pos hstrip,
              ih sErr count seen hnd', List.countP_cons, hel]
          · have hel : eligibleB env seen m = true := by
              simp [eligibleB, hseen, hext, hstrip]
            have hrest : ∀ m' ∈ rest, m'.pageid ≠ m.pageid := by
              intro m' hm' heq
              exact hm (heq ▸ List.mem_map_of_mem (fun x => x.pageid) hm')
            have hcong := countP_eligible_cons env m.pageid rest seen hrest
            have := ih sErr (count + 1) (m.pageid :: seen) hnd'
            rw [hcong] at this
            simp only [crawl_pages, if_neg hcnt, if_neg hseen, hext, if_neg hstrip]
            simp [List.countP_cons, hel, this]
            omega

/-- Every record the page loop writes is `mkRecord` of an extract that is
non-whitespace. -/
theorem crawl_pages_recs_shape (env : WikiEnv) (lang : String) (maxp : Nat) (path : List String) :
    ∀ (ms : List Member) (sErr : Option String) (count : Nat) (seen : List Nat),
      ∀ r ∈ (crawl_pages env lang maxp path ms sErr count seen).recs,
        ∃ info, r = mkRecord lang path info ∧ pyStrip info.extract ≠ "" := by
  intro ms
  induction ms with
  | nil => intro sErr count seen r hr; simp [crawl_pages] at hr
  | cons m rest ih =>
    intro sErr count seen r hr
    by_cases hcnt : maxp ≤ count
    · simp [crawl_pages, if_pos hcnt] at hr
    · by_cases hseen : m.pageid ∈ seen
      · exact ih sErr count seen r (by simpa [crawl_pages, if_neg hcnt, if_pos hseen] using hr)
      · cases hext : env.extractOf m.pageid with
        | fail e =>
          exact ih sErr count seen r
            (by simpa [crawl_pages, if_neg hcnt, if_neg hseen, hext] using hr)
        | missing =>
          exact ih sErr count seen r
            (by simpa [crawl_pages, if_neg hcnt, if_neg hseen, hext] using hr)
        | ok info =>
          by_cases hstrip : pyStrip info.extract = ""
          · exact ih sErr count seen r
              (by simpa [crawl_pages, if_neg hcnt, if_neg hseen, hext, if_pos hstrip] using hr)
          · simp only [crawl_pages, if_neg hcnt, if_neg hseen, hext, if_neg hstrip,
              List.mem_cons] at hr
            rcases hr with hr | hr
            · exact ⟨info, hr, hstrip⟩
            · exact ih sErr (count + 1) (m.pageid :: seen) r hr

/-- The seen-set/output invariant of one crawl result relative to the
incoming seen set: the written pageids are pairwise distinct, none was
seen on entry, and the outgoing seen set is exactly the written pageids
plus the incoming ones. -/
def SeenInv (r : CrawlResult) (s : List Nat) : Prop :=
  (r.recs.map (fun x => x.pageid)).Nodup
  ∧ (∀ q ∈ r.recs.map (fun x => x.pageid), q ∉ s)
  ∧ (∀ q, q ∈ r.seen ↔ q ∈ r.recs.map (fun x => x.pageid) ∨ q ∈ s)

/-- Sequencing two crawl phases preserves the invariant. -/
theorem SeenInv.combine {r1 r2 : CrawlResult} {s : List Nat} (e : Option String)
    (h1 : SeenInv r1 s) (h2 : SeenInv r2 r1.seen) :
    SeenInv ⟨r1.recs ++ r2.recs, r2.seen, e⟩ s := by
  obtain ⟨h1n, h1f, h1s⟩ := h1
  obtain ⟨h2n, h2f, h2s⟩ := h2
  have hsub1 : ∀ q ∈ r1.recs.map (fun x => x.pageid), q ∈ r1.seen := by
    intro q hq; exact (h1s q).mpr (Or.inl hq)
  have hmono : ∀ q ∈ s, q ∈ r1.seen := by
    intro q hq; exact (h1s q).mpr (Or.inr hq)
  refine ⟨?_, ?_, ?_⟩
  · rw [List.map_append]
    exact List.Nodup.append h1n h2n
      (fun q hq1 hq2 => h2f q hq2 (hsub1 q hq1))
  · intro q hq
    rw [List.map_append, List.mem_append] at hq
    rcases hq with hq | hq
    · exact h1f q hq
    · exact fun hqs => h2f q hq (hmono q hqs)
  · intro q
    rw [List.map_append, List.mem_append]
    constructor
    · intro hq
      rcases (h2s q).mp hq with hq | hq
      · exact Or.inl (Or.inr hq)
      · rcases (h1s q).mp hq with hq | hq
        · exact Or.inl (Or.inl hq)
        · exact Or.inr hq
    · intro hq
      rcases hq with (hq | hq) | hq
      · exact (h2s q).mpr (Or.inr (hsub1 q hq))
      · exact (h2s q).mpr (Or.inl hq)
      · exact (h2s q).mpr (Or.inr (hmono q hq))

/-- The page loop establishes the seen-set invariant (under the API
consistency assumption, since a record's pageid comes from the extract
response while the seen set stores the member's). -/
theorem crawl_pages_inv (env : WikiEnv) (lang : String) (maxp : Nat) (path : List String)
    (hc : Consistent env) :
    ∀ (ms : List Member) (sErr : Option String) (count : Nat) (seen : List Nat),
      SeenInv (crawl_pages env lang maxp path ms sErr count seen) seen := by
  intro ms
  induction ms with
  | nil =>
    intro sErr count seen
    refine ⟨by simp [crawl_pages], by simp [crawl_pages], fun q => by simp [crawl_pages]⟩
  | cons m rest ih =>
    intro sErr count seen
    by_cases hcnt : maxp ≤ count
    · refine ⟨by simp [crawl_pages, if_pos hcnt], by simp [crawl_pages, if_pos hcnt],
        fun q => by simp [crawl_pages, if_pos hcnt]⟩
    · by_cases hseen : m.pageid ∈ seen
      · simpa [crawl_pages, if_neg hcnt, if_pos hseen] using ih sErr count seen
      · cases hext : env.extractOf m.pageid with
        | fail e =>
          simpa [crawl_pages, if_neg hcnt, if_neg hseen, hext] using ih sErr count seen
        | missing =>
          simpa [crawl_pages, if_neg hcnt, if_neg hseen, hext] using ih sErr count seen
        | ok info =>
          by_cases hstrip : pyStrip info.extract = ""
          · simpa [crawl_pages, if_neg hcnt, if_neg hseen, hext, if_pos hstrip]
              using ih sErr count seen
          · obtain ⟨ihn, ihf, ihs⟩ := ih sErr (count + 1) (m.pageid :: seen)
            have hpid : info.pageid = m.pageid := hc m.pageid info hext
            simp only [crawl_pages, if_neg hcnt, if_neg hseen, hext, if_neg hstrip]
            refine ⟨?_, ?_, ?_⟩
            · simp only [List.map_cons, List.nodup_cons, mkRecord, hpid]
              refine ⟨fun hmem => ?_, ihn⟩
              exact ihf m.pageid hmem (List.mem_cons_self _ _)
            · intro q hq
              simp only [List.map_cons, List.mem_cons, mkRecord, hpid] at hq
              rcases hq with hq | hq
              · exact hq ▸ hseen
              · intro hqs
                exact ihf q hq (List.mem_cons_of_mem _ hqs)
            · intro q
              have := ihs q
              simp only [List.mem_cons] at this
              simp only [List.map_cons, List.mem_cons, mkRecord, hpid, this]
              tauto

/-- The subcategory loop lifts a pointwise record property of the
recursive call to all records it contributes. -/
theorem crawl_subcats_recs_lift (rec : String → List Nat → List String → CrawlResult)
    (P : OutputRecord → Prop)
    (hrec : ∀ c s p, ∀ r ∈ (rec c s p).recs, P r) :
    ∀ (ms : List Member) (sErr : Option String) (seen : List Nat) (path : List String),
      ∀ r ∈ (crawl_subcats rec ms sErr seen path).recs, P r := by
  intro ms
  induction ms with
  | nil => intro sErr seen path r hr; simp [crawl_subcats] at hr
  | cons m rest ih =>
    intro sErr seen path r hr
    by_cases hcyc : normTitle m.title ∈ path
    · exact ih sErr seen path r (by simpa [crawl_subcats, if_pos hcyc] using hr)
    · simp only [crawl_subcats, if_neg hcyc] at hr
      cases herr : (rec (normTitle m.title) seen (path ++ [normTitle m.title])).err with
      | some e =>
        rw [herr] at hr
        exact hrec _ _ _ r hr
      | none =>
        rw [herr] at hr
        simp only [List.mem_append] at hr
        rcases hr with hr | hr
        · exact hrec _ _ _ r hr
        · exact ih sErr _ path r hr

/-- The subcategory loop preserves the seen-set invariant when every
recursive call establishes it. -/
theorem crawl_subcats_inv (rec : String → List Nat → List String → CrawlResult)
    (hrec : ∀ c s p, SeenInv (rec c s p) s) :
    ∀ (ms : List Member) (sErr : Option String) (seen : List Nat) (path : List String),
      SeenInv (crawl_subcats rec ms sErr seen path) seen := by
  intro ms
  induction ms with
  | nil =>
    intro sErr seen path
    refine ⟨by simp [crawl_subcats], by simp [crawl_subcats], fun q => by simp [crawl_subcats]⟩
  | cons m rest ih =>
    intro sErr seen path
    by_cases hcyc : normTitle m.title ∈ path
    · simpa [crawl_subcats, if_pos hcyc] using ih sErr seen path
    · simp only [crawl_subcats, if_neg hcyc]
      have h1 := hrec (normTitle m.title) seen (path ++ [normTitle m.title])
      cases herr : (rec (normTitle m.title) seen (path ++ [normTitle m.title])).err with
      | some e => exact h1
      | none => exact SeenInv.combine _ h1 (ih sErr _ path)

/-- `crawl_category` establishes the seen-set invariant. -/
theorem crawl_category_inv (env : WikiEnv) (lang : String) (maxp : Nat)
    (hc : Consistent env) :
    ∀ (depth : Nat) (cat : String) (seen : List Nat) (path : List String),
      SeenInv (crawl_category env lang maxp depth cat seen path) seen := by
  intro depth
  induction depth with
  | zero =>
    intro cat seen path
    exact crawl_pages_inv env lang maxp path hc _ _ _ _
  | succ d ih =>
    intro cat seen path
    simp only [crawl_category]
    have h1 := crawl_pages_inv env lang maxp path hc (env.pagesOf cat).members
      (env.pagesOf cat).streamErr 0 seen
    cases herr : (crawl_pages env lang maxp path (env.pagesOf cat).members
        (env.pagesOf cat).streamErr 0 seen).err with
    | some e => exact h1
    | none =>
      exact SeenInv.combine _ h1
        (crawl_subcats_inv _ (fun c s p => ih c s p) _ _ _ _)

/-- Every record `crawl_category` writes is built by `mkRecord` from the
crawl's language, some category path, and a non-whitespace extract. -/
theorem crawl_category_recs_shape (env : WikiEnv) (lang : String) (maxp : Nat) :
    ∀ (depth : Nat) (cat : String) (seen : List Nat) (path : List String),
      ∀ r ∈ (crawl_category env lang maxp depth cat seen path).recs,
        ∃ p info, r = mkRecord lang p info ∧ pyStrip info.extract ≠ "" := by
  intro depth
  induction depth with
  | zero =>
    intro cat seen path r hr
    obtain ⟨info, hinfo⟩ := crawl_pages_recs_shape env lang maxp path _ _ _ _ r
      (by simpa [crawl_category] using hr)
    exact ⟨path, info, hinfo⟩
  | succ d ih =>
    intro cat seen path r hr
    simp only [crawl_category] at hr
    cases herr : (crawl_pages env lang maxp path (env.pagesOf cat).members
        (env.pagesOf cat).streamErr 0 seen).err with
    | some e =>
      rw [herr] at hr
      obtain ⟨info, hinfo⟩ := crawl_pages_recs_shape env lang maxp path _ _ _ _ r hr
      exact ⟨path, info, hinfo⟩
    | none =>
      rw [herr] at hr
      simp only [List.mem_append] at hr
      rcases hr with hr | hr
      · obtain ⟨info, hinfo⟩ := crawl_pages_recs_shape env lang maxp path _ _ _ _ r hr
        exact ⟨path, info, hinfo⟩
      · exact crawl_subcats_recs_lift _ _ (fun c s p r hr => ih c s p r hr) _ _ _ _ r hr

/-- `crawl_category`'s output starts with the page-loop records of the
category itself; subcategory contributions only follow them. -/
theorem crawl_category_pages_prefix (env : WikiEnv) (lang : String) (maxp : Nat)
    (depth : Nat) (cat : String) (seen : List Nat) (path : List String) :
    ∃ rest, (crawl_category env lang maxp depth cat seen path).recs
      = (crawl_pages env lang maxp path (env.pagesOf cat).members
          (env.pagesOf cat).streamErr 0 seen).recs ++ rest := by
  cases depth with
  | zero => exact ⟨[], by simp [crawl_category]⟩
  | succ d =>
    simp only [crawl_category]
    cases herr : (crawl_pages env lang maxp path (env.pagesOf cat).members
        (env.pagesOf cat).streamErr 0 seen).err with
    | some e => exact ⟨[], by simp⟩
    | none => exact ⟨_, rfl⟩

/-! ## Lemmas about the run driver -/

/-- Folding an append-accumulator pair over a list flattens the mapped
contributions. -/
theorem foldl_pair_append {α β γ : Type} (f : α → List β) (g : α → List γ) :
    ∀ (xs : List α) (acc : List β × List γ),
      xs.foldl (fun a x => (a.1 ++ f x, a.2 ++ g x)) acc
        = (acc.1 ++ (xs.map f).flatten, acc.2 ++ (xs.map g).flatten) := by
  intro xs
  induction xs with
  | nil => intro acc; simp
  | cons x rest ih =>
    intro acc
    simp only [List.foldl_cons, ih, List.map_cons, List.flatten_cons, List.append_assoc]

/-- Flattening per-pair contributions over `pairsOf` equals the nested
per-language flattening. -/
theorem pairs_flatten {β : Type} (f : String × String → List β) (langs cats : List String) :
    ((pairsOf langs cats).map f).flatten
      = (langs.map (fun lang => (cats.map (fun cat => f (lang, cat))).flatten)).flatten := by
  unfold pairsOf
  induction langs with
  | nil => simp
  | cons l rest ih =>
    simp only [List.map_cons, List.flatten_cons, List.map_append, List.flatten_append, ih,
      List.map_map]
    congr 1

/-- The lines `mainRun` writes: each pair's records, serialized, in
iteration order — independent of the sink's previous content. -/
theorem mainRun_lines_eq (envOf : String → WikiEnv) (langs cats : List String)
    (maxp depth : Nat) (prev : List Json) :
    (mainRun envOf langs cats maxp depth prev).1
      = ((pairsOf langs cats).map
          (fun pr => (crawlPair envOf maxp depth pr.1 pr.2).recs.map record_json)).flatten := by
  unfold mainRun
  have inner : ∀ (lang : String) (acc : List Json × List String),
      cats.foldl (fun acc2 cat =>
        let r := crawlPair envOf maxp depth lang cat
        (acc2.1 ++ r.recs.map record_json,
          acc2.2 ++ match r.err with
            | some e => [errLine lang cat e]
            | none => [])) acc
      = (acc.1 ++ (cats.map (fun cat =>
            (crawlPair envOf maxp depth lang cat).recs.map record_json)).flatten,
         acc.2 ++ (cats.map (fun cat =>
            match (crawlPair envOf maxp depth lang cat).err with
            | some e => [errLine lang cat e]
            | none => [])).flatten) := by
    intro lang acc
    exact foldl_pair_append _ _ cats acc
  have outer : ∀ (ls : List String) (acc : List Json × List String),
      ls.foldl (fun acc lang =>
        cats.foldl (fun acc2 cat =>
          let r := crawlPair envOf maxp depth lang cat
          (acc2.1 ++ r.recs.map record_json,
            acc2.2 ++ match r.err with
              | some e => [errLine lang cat e]
              | none => [])) acc) acc
      = (acc.1 ++ (ls.map (fun lang => (cats.map (fun cat =>
            (crawlPair envOf maxp depth lang cat).recs.map record_json)).flatten)).flatten,
         acc.2 ++ (ls.map (fun lang => (cats.map (fun cat =>
            match (crawlPair envOf maxp depth lang cat).err with
            | some e => [errLine lang cat e]
            | none => [])).flatten)).flatten) := by
    intro ls
    induction ls with
    | nil => intro acc; simp
    | cons l rest ihl =>
      intro acc
      simp only [List.foldl_cons, inner l acc, ihl, List.map_cons, List.flatten_cons,
        List.append_assoc]
  rw [outer langs (openFile OpenMode.write prev, [])]
  rw [pairs_flatten]
  simp [openFile]

/-- The error log `mainRun` produces: one line per pair whose crawl
raised. -/
theorem mainRun_log_eq (envOf : String → WikiEnv) (langs cats : List String)
    (maxp depth : Nat) (prev : List Json) :
    (mainRun envOf langs cats maxp depth prev).2
      = ((pairsOf langs cats).map
          (fun pr => match (crawlPair envOf maxp depth pr.1 pr.2).err with
            | some e => [errLine pr.1 pr.2 e]
            | none => [])).flatten := by
  unfold mainRun
  have outer : ∀ (ls : List String) (acc : List Json × List String),
      ls.foldl (fun acc lang =>
        cats.foldl (fun acc2 cat =>
          let r := crawlPair envOf maxp depth lang cat
          (acc2.1 ++ r.recs.map record_json,
            acc2.2 ++ match r.err with
              | some e => [errLine lang cat e]
              | none => [])) acc) acc
      = (acc.1 ++ (ls.map (fun lang => (cats.map (fun cat =>
            (crawlPair envOf maxp depth lang cat).recs.map record_json)).flatten)).flatten,
         acc.2 ++ (ls.map (fun lang => (cats.map (fun cat =>
            match (crawlPair envOf maxp depth lang cat).err with
            | some e => [errLine lang cat e]
            | none => [])).flatten)).flatten) := by
    intro ls
    induction ls with
    | nil => intro acc; simp
    | cons l rest ihl =>
      intro acc
      simp only [List.foldl_cons, foldl_pair_append _ _ cats acc, ihl, List.map_cons,
        List.flatten_cons, List.append_assoc]
  rw [outer langs (openFile OpenMode.write prev, [])]
  rw [pairs_flatten]
  simp [openFile]

/-- In the empty environment the crawler writes nothing, raises nothing,
and leaves the seen set alone. -/
theorem crawl_category_envEmpty (lang : String) (maxp : Nat) :
    ∀ (depth : Nat) (cat : String) (seen : List Nat) (path : List String),
      crawl_category envEmpty lang maxp depth cat seen path = ⟨[], seen, none⟩ := by
  intro depth
  cases depth with
  | zero => intro cat seen path; rfl
  | succ d => intro cat seen path; rfl

/-! ## Lemmas about the HTTP access layer -/

/-- The retry loop only ever consults the outcomes of the attempts it is
still allowed to make. -/
theorem api_get_from_congr {α : Type} (a b : Nat → Attempt α) (url : String) :
    ∀ (k i : Nat), (∀ j, j < k → a (i + j) = b (i + j)) →
      api_get_from a url i k = api_get_from b url i k := by
  intro k
  induction k with
  | zero => intro i _; rfl
  | succ k ih =>
    intro i h
    have h0 : a i = b i := by simpa using h 0 (Nat.succ_pos k)
    have htail : ∀ j, j < k → a (i + 1 + j) = b (i + 1 + j) := by
      intro j hj
      have := h (j + 1) (by omega)
      simpa [Nat.add_assoc, Nat.add_comm 1 j] using this
    simp only [api_get_from, h0]
    cases b i with
    | transportError m => exact ih (i + 1) htail
    | response s body =>
      by_cases hs : s = 200
      · simp [hs]
      · simp only [if_neg hs]
        exact ih (i + 1) htail

/-- A 200 response after a run of failed attempts makes the loop return
its body. -/
theorem api_get_from_ok {α : Type} (a : Nat → Attempt α) (url : String) :
    ∀ (k j i : Nat) (body : α), j < k → a (i + j) = .response 200 body →
      (∀ l, l < j → attemptFails (a (i + l)) = true) →
      api_get_from a url i k = .ok body := by
  intro k
  induction k with
  | zero => intro j i body hj; omega
  | succ k ih =>
    intro j i body hj hok hfail
    cases j with
    | zero =>
      have h0 : a i = .response 200 body := by simpa using hok
      simp [api_get_from, h0]
    | succ j =>
      have h0 : attemptFails (a i) = true := by simpa using hfail 0 (Nat.succ_pos j)
      have hok' : a (i + 1 + j) = .response 200 body := by
        simpa [Nat.add_assoc, Nat.add_comm 1 j] using hok
      have hfail' : ∀ l, l < j → attemptFails (a (i + 1 + l)) = true := by
        intro l hl
        have := hfail (l + 1) (by omega)
        simpa [Nat.add_assoc, Nat.add_comm 1 l] using this
      have hrec := ih j (i + 1) body (by omega) hok' hfail'
      simp only [api_get_from]
      cases ha : a i with
      | transportError m => exact hrec
      | response s b =>
        have : s ≠ 200 := by
          intro hs
          rw [ha, hs] at h0
          simp [attemptFails] at h0
        simp only [if_neg this]
        exact hrec

/-- When every allowed attempt fails, the loop raises the
`RuntimeError` whose message names the URL. -/
theorem api_get_from_err {α : Type} (a : Nat → Attempt α) (url : String) :
    ∀ (k i : Nat), (∀ j, j < k → attemptFails (a (i + j)) = true) →
      api_get_from a url i k = .error ("Failed to fetch " ++ url ++ " after 3 retries.") := by
  intro k
  induction k with
  | zero => intro i _; rfl
  | succ k ih =>
    intro i h
    have h0 : attemptFails (a i) = true := by simpa using h 0 (Nat.succ_pos k)
    have htail : ∀ j, j < k → attemptFails (a (i + 1 + j)) = true := by
      intro j hj
      have := h (j + 1) (by omega)
      simpa [Nat.add_assoc, Nat.add_comm 1 j] using this
    simp only [api_get_from]
    cases ha : a i with
    | transportError m => exact ih (i + 1) htail
    | response s b =>
      have : s ≠ 200 := by
        intro hs
        rw [ha, hs] at h0
        simp [attemptFails] at h0
      simp only [if_neg this]
      exact ih (i + 1) htail

/-- C4 (counterexample): the claim says the exhaustion error carries the
URL *and* the query parameters.  In the source the raised error is
`RuntimeError(f"Failed to fetch {url} after {MAX_RETRIES} retries.")`:
two calls with the same URL but different parameters, both exhausting
their retries, produce the very same error value, which therefore cannot
carry the parameters. -/
theorem c4_counterexample :
    api_get (α := Nat) "https://en.wikipedia.org/w/api.php" [("action", "query")]
        (fun _ => .transportError "connection refused")
      = api_get (α := Nat) "https://en.wikipedia.org/w/api.php" []
        (fun _ => .transportError "connection refused")
    ∧ api_get (α := Nat) "https://en.wikipedia.org/w/api.php" [("action", "query")]
        (fun _ => .transportError "connection refused")
      = .error "Failed to fetch https://en.wikipedia.org/w/api.php after 3 retries."
    ∧ ([("action", "query")] : List (String × String)) ≠ [] :=
  ⟨rfl, congrArg Except.error (by decide), by decide⟩

/-- C4 (amended): `api_get` makes at most `MAX_RETRIES = 3` attempts — its
result depends only on the first three attempt outcomes; an attempt
returning status 200 after only failed attempts makes it return that
response's parsed body (so 503, 503, 200 succeeds on the third attempt);
and when all three attempts fail (transport error or non-200 status) it
raises an error carrying the URL — but, unlike the claim, not the query
parameters. -/
theorem c4_retry_policy {α : Type} (url : String) (params : List (String × String))
    (a b : Nat → Attempt α) :
    ((∀ i, i < MAX_RETRIES → a i = b i) → api_get url params a = api_get url params b)
    ∧ (∀ k body, k < MAX_RETRIES → a k = .response 200 body →
        (∀ i, i < k → attemptFails (a i) = true) → api_get url params a = .ok body)
    ∧ ((∀ i, i < MAX_RETRIES → attemptFails (a i) = true) →
        api_get url params a = .error ("Failed to fetch " ++ url ++ " after 3 retries.")) := by
  refine ⟨fun h => ?_, fun k body hk hok hfail => ?_, fun h => ?_⟩
  · exact api_get_from_congr a b url MAX_RETRIES 0 (fun j hj => by simpa using h j hj)
  · exact api_get_from_ok a url MAX_RETRIES k 0 body hk (by simpa using hok)
      (fun l hl => by simpa using hfail l hl)
  · exact api_get_from_err a url MAX_RETRIES 0 (fun j hj => by simpa using h j hj)

/-- C4 (witness): the claim's scenario — statuses 503, 503, 200 — makes
`api_get` succeed on the third attempt with that response's body. -/
theorem c4_retry_policy_witness :
    api_get (α := Nat) "https://sr.wikipedia.org/w/api.php" []
      (fun i => if i < 2 then .response 503 0 else .response 200 42) = .ok 42 :=
  (c4_retry_policy "https://sr.wikipedia.org/w/api.php" []
      (fun i => if i < 2 then .response 503 0 else .response 200 42)
      (fun i => if i < 2 then .response 503 0 else .response 200 42)).2.1
    2 42 (by decide) (by decide) (by decide)

/-! ## Theorems about the extract fetcher -/

/-- C5 (counterexample): the claim says a call supplying *both* a page
identifier and a title fails with `InvalidArgument` before any network
call.  In the source, `if pageid is not None` wins: such a call does not
fail and issues one network request. -/
theorem c5_counterexample :
    (get_page_extract (fun _ => [("5", ⟨5, "T", "hello"⟩)]) (some 5) (some "T")).1
        = .ok (some ⟨5, "T", "hello"⟩)
    ∧ ((get_page_extract (fun _ => [("5", ⟨5, "T", "hello"⟩)]) (some 5) (some "T")).2).length
        = 1 :=
  ⟨rfl, rfl⟩

/-- C5 (amended): supplying neither a page identifier nor a title makes
`get_page_extract` fail with `ValueError("pageid or title required")`
before any network request is issued; supplying both is accepted — the
page identifier takes precedence and the call behaves exactly as if the
title had not been supplied; each accepted call issues exactly one
request carrying the matching selector parameter. -/
theorem c5_argument_validation
    (api : List (String × String) → List (String × PageObj)) (p : Nat) (t : String)
    (anyTitle : Option String) :
    get_page_extract api none none = (.error "pageid or title required", [])
    ∧ get_page_extract api (some p) anyTitle = get_page_extract api (some p) none
    ∧ (get_page_extract api (some p) none).2 = [exBaseParams ++ [("pageids", toString p)]]
    ∧ (get_page_extract api none (some t)).2 = [exBaseParams ++ [("titles", t)]] :=
  ⟨rfl, rfl, rfl, rfl⟩

/-! ## Theorems about the category member enumerator -/

/-- One pagination step when the response carries a continuation token. -/
theorem get_category_members_go_cons_some (params : List (String × String))
    (r : CMResponse) (rest : List CMResponse) (c : List (String × String))
    (h : r.cont = some c) :
    get_category_members_go params (r :: rest)
      = (r.members ++ (get_category_members_go (updateParams params c) rest).1,
         params :: (get_category_members_go (updateParams params c) rest).2) := by
  simp [get_category_members_go, h]

/-- The pagination loop on a response sequence whose last element lacks a
continuation token (and all earlier ones have one): it yields the
concatenated batches and issues exactly the base query followed by the
token-merged re-issues. -/
theorem get_category_members_go_good :
    ∀ (rs : List CMResponse) (params : List (String × String)), goodRespSeq rs = true →
      get_category_members_go params rs
        = ((rs.map (fun r => r.members)).flatten, expectedRequests params rs) := by
  intro rs
  induction rs with
  | nil => intro params h; simp [goodRespSeq] at h
  | cons r rest ih =>
    intro params h
    cases rest with
    | nil =>
      have hc : r.cont = none := by
        simpa [goodRespSeq, Option.isNone_iff_eq_none] using h
      simp [get_category_members_go, expectedRequests, hc]
    | cons r2 rest2 =>
      have hc : r.cont.isSome := by
        simp [goodRespSeq] at h
        exact h.1
      obtain ⟨c, hc⟩ := Option.isSome_iff_exists.mp hc
      have hrest : goodRespSeq (r2 :: rest2) = true := by
        simp [goodRespSeq] at h ⊢
        exact h.2
      have hnext := ih (updateParams params c) hrest
      rw [get_category_members_go_cons_some params r (r2 :: rest2) c hc, hnext]
      simp [expectedRequests, hc]

/-- C8: for any finite sequence of API responses in which every response
but the last carries a continuation token and the last does not, the
enumerator yields exactly the concatenation of the batches, in order, and
issues the original query followed by re-issues of the same query merged
with each received token. -/
theorem c8_pagination (category cmtype : String) (limit : Nat) (rs : List CMResponse)
    (h : goodRespSeq rs = true) :
    (get_category_members category cmtype limit rs).1
        = (rs.map (fun r => r.members)).flatten
    ∧ (get_category_members category cmtype limit rs).2
        = expectedRequests (cmBaseParams category limit cmtype) rs := by
  have := get_category_members_go_good rs (cmBaseParams category limit cmtype) h
  unfold get_category_members
  rw [this]
  exact ⟨rfl, rfl⟩

/-- C8 (witness): a two-batch category — first response with a
continuation token, second without — yields both batches concatenated. -/
theorem c8_pagination_witness :
    goodRespSeq [⟨[⟨1, "A"⟩], some [("cmcontinue", "x")]⟩, ⟨[⟨2, "B"⟩], none⟩] = true
    ∧ (get_category_members "Physics" "page" 500
        [⟨[⟨1, "A"⟩], some [("cmcontinue", "x")]⟩, ⟨[⟨2, "B"⟩], none⟩]).1
      = [⟨1, "A"⟩, ⟨2, "B"⟩] :=
  ⟨by decide,
    (c8_pagination "Physics" "page" 500
      [⟨[⟨1, "A"⟩], some [("cmcontinue", "x")]⟩, ⟨[⟨2, "B"⟩], none⟩] (by decide)).1.trans
      (by decide)⟩

/-! ## The subcategory loop as its list of recursive calls -/

/-- A member whose normalized title occurs in the path contributes no
call. -/
theorem subcat_calls_cons_skip (m : Member) (rest : List Member) (path : List String)
    (h : normTitle m.title ∈ path) :
    subcat_calls (m :: rest) path = subcat_calls rest path := by
  simp [subcat_calls, h]

/-- A member whose normalized title is new contributes the call on that
name with the extended path. -/
theorem subcat_calls_cons_go (m : Member) (rest : List Member) (path : List String)
    (h : normTitle m.title ∉ path) :
    subcat_calls (m :: rest) path
      = (normTitle m.title, path ++ [normTitle m.title]) :: subcat_calls rest path := by
  simp [subcat_calls, h]

/-- The subcategory loop is exactly the run of the calls selected by the
cycle guard. -/
theorem crawl_subcats_eq_runCalls (rec : String → List Nat → List String → CrawlResult) :
    ∀ (ms : List Member) (sErr : Option String) (seen : List Nat) (path : List String),
      crawl_subcats rec ms sErr seen path = runCalls rec (subcat_calls ms path) sErr seen := by
  intro ms
  induction ms with
  | nil => intro sErr seen path; simp [crawl_subcats, subcat_calls, runCalls]
  | cons m rest ih =>
    intro sErr seen path
    by_cases hcyc : normTitle m.title ∈ path
    · rw [subcat_calls_cons_skip m rest path hcyc]
      simp only [crawl_subcats, if_pos hcyc]
      exact ih sErr seen path
    · rw [subcat_calls_cons_go m rest path hcyc]
      simp only [crawl_subcats, runCalls, if_neg hcyc]
      cases herr : (rec (normTitle m.title) seen (path ++ [normTitle m.title])).err with
      | some e => rfl
      | none => rw [ih sErr _ path]

/-- Every call the cycle guard selects targets a name outside the current
path and extends the path by exactly that name. -/
theorem subcat_calls_sound (ms : List Member) (path : List String) :
    ∀ pr ∈ subcat_calls ms path, pr.1 ∉ path ∧ pr.2 = path ++ [pr.1] := by
  intro pr hpr
  unfold subcat_calls at hpr
  rw [List.mem_filterMap] at hpr
  obtain ⟨m, _, hm⟩ := hpr
  by_cases hcyc : normTitle m.title ∈ path
  · simp [hcyc] at hm
  · simp only [if_neg hcyc] at hm
    cases hm
    exact ⟨hcyc, rfl⟩

/-- Every member whose normalized title is new is selected. -/
theorem subcat_calls_complete (ms : List Member) (path : List String) :
    ∀ m ∈ ms, normTitle m.title ∉ path →
      (normTitle m.title, path ++ [normTitle m.title]) ∈ subcat_calls ms path := by
  intro m hm hcyc
  unfold subcat_calls
  rw [List.mem_filterMap]
  exact ⟨m, hm, by simp [hcyc]⟩

/-! ## Concrete environments for witnesses and counterexamples -/

/-- A small two-level wiki: `Physics` has pages P1 (good extract) and P2
(whitespace extract) and subcategory `Astro` with page P3; `Math` has two
pages with good extracts. -/
def envA : WikiEnv :=
  { pagesOf := fun c =>
      if c = "Physics" then ⟨[⟨1, "P1"⟩, ⟨2, "P2"⟩], none⟩
      else if c = "Astro" then ⟨[⟨3, "P3"⟩], none⟩
      else if c = "Math" then ⟨[⟨4, "P4"⟩, ⟨5, "P5"⟩], none⟩
      else ⟨[], none⟩
    subcatsOf := fun c =>
      if c = "Physics" then ⟨[⟨10, "Category:Astro"⟩], none⟩ else ⟨[], none⟩
    extractOf := fun pid =>
      .ok ⟨pid, if pid = 2 then "P2" else if pid = 3 then "P3" else "P1",
        if pid = 2 then "  " else if pid = 3 then "World" else "Hello"⟩ }

/-- `envA` reports every page under its own pageid. -/
theorem envA_consistent : Consistent envA := by
  intro pid info h
  simp only [envA] at h
  injection h with h
  rw [← h]

/-- An environment whose category `Bad` fails enumeration immediately
while `Good` has one page with a good extract. -/
def envErr : WikiEnv :=
  { pagesOf := fun c =>
      if c = "Bad" then ⟨[], some "boom"⟩
      else if c = "Good" then ⟨[⟨1, "P"⟩], none⟩
      else ⟨[], none⟩
    subcatsOf := fun _ => ⟨[], none⟩
    extractOf := fun pid => .ok ⟨pid, "P", "hello"⟩ }

/-- An environment exhibiting the difference between replace-all and
prefix-strip normalization: category `A B` has a subcategory member
titled `Category:A Category:B`, and the category named by the
prefix-stripped title has one good page. -/
def envC3 : WikiEnv :=
  { pagesOf := fun c =>
      if c = "A Category:B" then ⟨[⟨2, "P"⟩], none⟩ else ⟨[], none⟩
    subcatsOf := fun c =>
      if c = "A B" then ⟨[⟨10, "Category:A Category:B"⟩], none⟩ else ⟨[], none⟩
    extractOf := fun pid => .ok ⟨pid, "P", "text"⟩ }

/-! ## Claim theorems -/

/-- C1: when a category's page members carry pairwise distinct pageids
and more than `max_pages_per_cat` of them are eligible (unseen, extract
fetched, non-whitespace after stripping), the crawl of that category
emits exactly `max_pages_per_cat` records from the category's own page
members; subcategory contributions only follow them and do not count
toward the bound, which is reset per category (the counter starts at 0 in
each invocation). -/
theorem c1_page_cap (env : WikiEnv) (lang : String) (maxp depth : Nat) (cat : String)
    (seen : List Nat) (path : List String)
    (hnd : ((env.pagesOf cat).members.map (fun m => m.pageid)).Nodup)
    (hN : maxp < (env.pagesOf cat).members.countP (eligibleB env seen)) :
    ∃ rest, (crawl_category env lang maxp depth cat seen path).recs
        = (crawl_pages env lang maxp path (env.pagesOf cat).members
            (env.pagesOf cat).streamErr 0 seen).recs ++ rest
      ∧ (crawl_pages env lang maxp path (env.pagesOf cat).members
          (env.pagesOf cat).streamErr 0 seen).recs.length = maxp := by
  obtain ⟨rest, hrest⟩ := crawl_category_pages_prefix env lang maxp depth cat seen path
  refine ⟨rest, hrest, ?_⟩
  rw [crawl_pages_length env lang maxp path _ _ 0 _ hnd]
  omega

/-- C1 (witness): category `Math` of `envA` has 2 eligible pages and
`max_pages_per_cat = 1`; exactly one record is emitted. -/
theorem c1_page_cap_witness :
    ((((envA.pagesOf "Math").members.map (fun m => m.pageid)).Nodup)
      ∧ 1 < (envA.pagesOf "Math").members.countP (eligibleB envA []))
    ∧ ∃ rest, (crawl_category envA "en" 1 0 "Math" [] ["Math"]).recs
        = (crawl_pages envA "en" 1 ["Math"] (envA.pagesOf "Math").members
            (envA.pagesOf "Math").streamErr 0 []).recs ++ rest
      ∧ (crawl_pages envA "en" 1 ["Math"] (envA.pagesOf "Math").members
          (envA.pagesOf "Math").streamErr 0 []).recs.length = 1 :=
  ⟨⟨by decide, by decide⟩,
    c1_page_cap envA "en" 1 0 "Math" [] ["Math"] (by decide) (by decide)⟩

/-- C2: within one crawl-category invocation tree sharing one seen set
(assuming the API reports each page under its own pageid), the emitted
records carry pairwise distinct pageids, none of them was seen on entry,
and the final seen set holds exactly the written pageids plus the initial
ones — a pageid is added exactly when its record is written. -/
theorem c2_no_duplicate_pageids (env : WikiEnv) (lang : String) (maxp depth : Nat)
    (cat : String) (seen : List Nat) (path : List String) (hc : Consistent env) :
    ((crawl_category env lang maxp depth cat seen path).recs.map (fun r => r.pageid)).Nodup
    ∧ (∀ q ∈ (crawl_category env lang maxp depth cat seen path).recs.map (fun r => r.pageid),
        q ∉ seen)
    ∧ (∀ q, q ∈ (crawl_category env lang maxp depth cat seen path).seen
        ↔ q ∈ (crawl_category env lang maxp depth cat seen path).recs.map (fun r => r.pageid)
          ∨ q ∈ seen) :=
  crawl_category_inv env lang maxp hc depth cat seen path

/-- C2 (witness): the depth-1 crawl of `Physics` in `envA` (page P3
reachable only through the subcategory) writes pairwise distinct
pageids. -/
theorem c2_no_duplicate_pageids_witness :
    ((crawl_category envA "en" 10 1 "Physics" [] ["Physics"]).recs.map
      (fun r => r.pageid)).Nodup :=
  (c2_no_duplicate_pageids envA "en" 10 1 "Physics" [] ["Physics"] envA_consistent).1

/-- C3 (counterexample): the claim normalizes a subcategory title by
stripping the category-namespace *prefix*; the source removes *every*
occurrence of `"Category:"`.  For the member title
`"Category:A Category:B"` under `category_path = ["A B"]` the
prefix-stripped name `"A Category:B"` is not in the path, so by the claim
the subcategory must be recursed into — but the crawler normalizes it to
`"A B"`, finds it in the path, and skips it, emitting nothing, while the
claim's reading (the spec-modelled crawler) emits a record. -/
theorem c3_counterexample :
    stripCatPrefix "Category:A Category:B" = "A Category:B"
    ∧ "A Category:B" ∉ (["A B"] : List String)
    ∧ normTitle "Category:A Category:B" = "A B"
    ∧ (crawl_category envC3 "en" 10 1 "A B" [] ["A B"]).recs = []
    ∧ (crawl_category_spec envC3 "en" 10 1 "A B" [] ["A B"]).recs ≠ [] :=
  ⟨by decide, by decide, by decide, by decide, by decide⟩

/-- C3 (amended): during subcategory descent the loop performs exactly
the recursive calls selected by the cycle guard on the *replace-all*
normalized name (every occurrence of `"Category:"` removed): a
subcategory is recursed into iff that name does not already appear in
`category_path`; each performed call targets a name outside the current
path, uses `remaining_depth - 1` (the `rec` below is the crawl one level
down), extends the path by exactly the subcategory name, and threads the
same shared seen set. -/
theorem c3_cycle_guard (env : WikiEnv) (lang : String) (maxp d : Nat)
    (ms : List Member) (sErr : Option String) (seen : List Nat) (path : List String) :
    crawl_subcats (fun c s p => crawl_category env lang maxp d c s p) ms sErr seen path
      = runCalls (fun c s p => crawl_category env lang maxp d c s p)
          (subcat_calls ms path) sErr seen
    ∧ (∀ pr ∈ subcat_calls ms path, pr.1 ∉ path ∧ pr.2 = path ++ [pr.1])
    ∧ (∀ m ∈ ms, normTitle m.title ∉ path →
        (normTitle m.title, path ++ [normTitle m.title]) ∈ subcat_calls ms path) :=
  ⟨crawl_subcats_eq_runCalls _ ms sErr seen path,
   subcat_calls_sound ms path,
   subcat_calls_complete ms path⟩

/-- C3 (witness): the single subcategory `Category:Astro` of `Physics`
normalizes to `Astro`, is not in the path, and is recursed into with the
extended path. -/
theorem c3_cycle_guard_witness :
    (crawl_subcats (fun c s p => crawl_category envA "en" 10 0 c s p)
        [⟨10, "Category:Astro"⟩] none [] ["Physics"]
      = runCalls (fun c s p => crawl_category envA "en" 10 0 c s p)
          [("Astro", ["Physics", "Astro"])] none [])
    ∧ "Astro" ∉ (["Physics"] : List String) :=
  ⟨((c3_cycle_guard envA "en" 10 0 [⟨10, "Category:Astro"⟩] none [] ["Physics"]).1).trans rfl,
   ((c3_cycle_guard envA "en" 10 0 [⟨10, "Category:Astro"⟩] none [] ["Physics"]).2.1
      ("Astro", ["Physics", "Astro"]) (by decide)).1⟩

/-- C6: every line the run driver writes to the sink is a JSON object
with exactly the six fields `lang` (string), `category_path` (array of
strings), `title` (string), `pageid` (integer), `text` (string) and `url`
(string), and the url is built from the object's own language and title by
replacing spaces with underscores and percent-encoding. -/
theorem c6_line_shape (envOf : String → WikiEnv) (langs cats : List String)
    (maxp depth : Nat) (prev : List Json) :
    ∀ j ∈ (mainRun envOf langs cats maxp depth prev).1,
      ∃ (lg : String) (cp : List String) (t : String) (pid : Nat) (x u : String),
        j = Json.obj [("lang", .str lg), ("category_path", .arr (cp.map Json.str)),
          ("title", .str t), ("pageid", .num (pid : Int)), ("text", .str x),
          ("url", .str u)]
        ∧ u = urlOf lg t := by
  intro j hj
  rw [mainRun_lines_eq] at hj
  rw [List.mem_flatten] at hj
  obtain ⟨l, hl, hjl⟩ := hj
  rw [List.mem_map] at hl
  obtain ⟨pr, hpr, rfl⟩ := hl
  rw [List.mem_map] at hjl
  obtain ⟨r, hr, rfl⟩ := hjl
  obtain ⟨p, info, rfl, hne⟩ :=
    crawl_category_recs_shape (envOf pr.1) pr.1 maxp depth pr.2 [] [pr.2] r hr
  exact ⟨pr.1, p, info.title, info.pageid, info.extract, urlOf pr.1 info.title, rfl, rfl⟩

/-- C6 (witness): the single line of a one-page run has the six-field
shape. -/
theorem c6_line_shape_witness :
    ∃ (lg : String) (cp : List String) (t : String) (pid : Nat) (x u : String),
      record_json (mkRecord "en" ["Math"] ⟨4, "P1", "Hello"⟩)
        = Json.obj [("lang", .str lg), ("category_path", .arr (cp.map Json.str)),
          ("title", .str t), ("pageid", .num (pid : Int)), ("text", .str x),
          ("url", .str u)]
      ∧ u = urlOf lg t :=
  c6_line_shape (fun _ => envA) ["en"] ["Math"] 1 0 []
    (record_json (mkRecord "en" ["Math"] ⟨4, "P1", "Hello"⟩))
    (List.Mem.head _)

/-- C7: every emitted record's text is non-whitespace after stripping,
and (assuming the API reports each page under its own pageid) the seen
set grows by exactly the written pageids — members skipped for a missing
or whitespace-only extract are neither written nor marked seen. -/
theorem c7_nonempty_extract (env : WikiEnv) (lang : String) (maxp depth : Nat)
    (cat : String) (seen : List Nat) (path : List String) :
    (∀ r ∈ (crawl_category env lang maxp depth cat seen path).recs, pyStrip r.text ≠ "")
    ∧ (Consistent env →
        ∀ q, q ∈ (crawl_category env lang maxp depth cat seen path).seen
          ↔ q ∈ (crawl_category env lang maxp depth cat seen path).recs.map
              (fun r => r.pageid) ∨ q ∈ seen) := by
  constructor
  · intro r hr
    obtain ⟨p, info, rfl, hne⟩ :=
      crawl_category_recs_shape env lang maxp depth cat seen path r hr
    exact hne
  · intro hc
    exact (crawl_category_inv env lang maxp hc depth cat seen path).2.2

/-- C7 (witness): in `envA`, page P2's whitespace-only extract is dropped:
pageid 2 is in the final seen set iff it was written (it is neither). -/
theorem c7_nonempty_extract_witness :
    (2 ∈ (crawl_category envA "en" 10 0 "Physics" [] ["Physics"]).seen
      ↔ 2 ∈ (crawl_category envA "en" 10 0 "Physics" [] ["Physics"]).recs.map
          (fun r => r.pageid) ∨ 2 ∈ ([] : List Nat))
    ∧ pyStrip (mkRecord "en" ["Physics"] ⟨1, "P1", "Hello"⟩).text ≠ "" :=
  ⟨(c7_nonempty_extract envA "en" 10 0 "Physics" [] ["Physics"]).2 envA_consistent 2,
   (c7_nonempty_extract envA "en" 10 0 "Physics" [] ["Physics"]).1
     (mkRecord "en" ["Physics"] ⟨1, "P1", "Hello"⟩) (by decide)⟩

/-- C9: the driver's output is the concatenation, over *all* (language,
category) pairs in iteration order, of each pair's crawl records — each
pair crawled with a fresh empty seen set and the fresh single-element
path `[category]` — regardless of which pairs raised; and every raised
pair error is caught and logged.  A pair's failure never aborts the
run. -/
theorem c9_pair_isolation (envOf : String → WikiEnv) (langs cats : List String)
    (maxp depth : Nat) (prev : List Json) :
    (mainRun envOf langs cats maxp depth prev).1
      = ((pairsOf langs cats).map (fun pr =>
          (crawl_category (envOf pr.1) pr.1 maxp depth pr.2 [] [pr.2]).recs.map
            record_json)).flatten
    ∧ ∀ pr ∈ pairsOf langs cats, ∀ e,
        (crawl_category (envOf pr.1) pr.1 maxp depth pr.2 [] [pr.2]).err = some e →
          errLine pr.1 pr.2 e ∈ (mainRun envOf langs cats maxp depth prev).2 := by
  constructor
  · exact mainRun_lines_eq envOf langs cats maxp depth prev
  · intro pr hpr e he
    rw [mainRun_log_eq]
    rw [List.mem_flatten]
    refine ⟨[errLine pr.1 pr.2 e], ?_, List.Mem.head _⟩
    rw [List.mem_map]
    refine ⟨pr, hpr, ?_⟩
    simp only [crawlPair]
    rw [he]

/-- C9 (witness): with pair `en:Bad` failing at enumeration and `en:Good`
succeeding, the failure is logged and the run still writes `Good`'s
record. -/
theorem c9_pair_isolation_witness :
    errLine "en" "Bad" "boom" ∈ (mainRun (fun _ => envErr) ["en"] ["Bad", "Good"] 5 0 []).2
    ∧ (mainRun (fun _ => envErr) ["en"] ["Bad", "Good"] 5 0 []).1
        = [record_json (mkRecord "en" ["Good"] ⟨1, "P", "hello"⟩)] :=
  ⟨(c9_pair_isolation (fun _ => envErr) ["en"] ["Bad", "Good"] 5 0 []).2
      ("en", "Bad") (by decide) "boom" (by decide),
   ((c9_pair_isolation (fun _ => envErr) ["en"] ["Bad", "Good"] 5 0 []).1).trans rfl⟩

/-- C10: the driver opens the sink in write mode before any crawling, so
the final file content never depends on what a previous run left there,
and a run that emits no records leaves the file empty. -/
theorem c10_truncate_on_open (envOf : String → WikiEnv) (langs cats : List String)
    (maxp depth : Nat) (prev prevOther : List Json) :
    mainRun envOf langs cats maxp depth prev = mainRun envOf langs cats maxp depth prevOther
    ∧ (mainRun (fun _ => envEmpty) langs cats maxp depth prev).1 = [] := by
  constructor
  · rfl
  · rw [mainRun_lines_eq]
    simp [crawlPair, crawl_category_envEmpty]

end WikiScraper
